import Mathlib

/-!
Formal model of the musictabapp worker pipeline.

This file embeds, as executable Lean definitions, the algorithmic core of
the worker service:

* `services/worker/midi_standardizer.py` — grid quantization
  (`quantize_to_grid`), GM percussion normalization
  (`normalize_gm_percussion`), ghost-note velocity rescaling and the
  polyphonic merge of `standardize_drum_midi`;
* `services/worker/drum_detector.py` — `DrumDetector.quantize_onsets`;
* `services/worker/transcribe_drums.py` — the minimum-gap post-filter;
* `services/worker/source_separator.py` — `SourceSeparator.separate`
  (method `none`) and `process_with_separation`;
* `services/worker/tasks.py` — the `process_job` orchestration task,
  modelled as the sequence of database writes it performs.

Python floats are modelled as exact rationals (`ℚ`); Python's banker's
rounding (`round`, and `np.round`) is modelled by `pyRound`.  MIDI pitches
and velocities are natural numbers.  Database and filesystem effects are
modelled as explicit traces / result records.
-/

namespace MusicTab

/-- Python's `round` (and NumPy's `np.round`): round half to even. -/
def pyRound (x : ℚ) : ℤ :=
  if x - ⌊x⌋ < 1/2 then ⌊x⌋
  else if (1 : ℚ)/2 < x - ⌊x⌋ then ⌊x⌋ + 1
  else if ⌊x⌋ % 2 = 0 then ⌊x⌋ else ⌊x⌋ + 1

/-- `GM_PERC_MAP` from `midi_standardizer.py`: the closed GM percussion
map, pitch number to drum name. -/
def GM_PERC_MAP : List (ℕ × String) :=
  [(36, "Kick"), (38, "Snare"), (42, "Hi-Hat Closed"), (46, "Hi-Hat Open"),
   (44, "Hi-Hat Pedal"), (45, "Tom Low"), (47, "Tom Mid"), (48, "Tom High"),
   (50, "Tom High"), (49, "Crash"), (51, "Ride"), (52, "China"), (57, "Crash")]

/-- The key set of `GM_PERC_MAP` (Python `pitch in GM_PERC_MAP` tests key
membership). -/
def gmPitches : List ℕ := GM_PERC_MAP.map Prod.fst

/-- The `pitch_mapping` dict literal inside `normalize_gm_percussion`.
The literal writes key `43` twice (first `43: 42`, then `43: 47`); in a
Python dict literal the later entry wins, so the effective mapping sends
`43` to `47`. -/
def pitch_mapping (pitch : ℕ) : Option ℕ :=
  if pitch = 35 then some 36
  else if pitch = 37 then some 38
  else if pitch = 40 then some 38
  else if pitch = 41 then some 45
  else if pitch = 43 then some 47
  else if pitch = 53 then some 51
  else if pitch = 55 then some 49
  else none

/-- `normalize_gm_percussion` from `midi_standardizer.py`: a pitch already
in `GM_PERC_MAP` is kept; otherwise `pitch_mapping.get(pitch, pitch)`
is returned (unknown pitches fall through unchanged). -/
def normalize_gm_percussion (pitch : ℕ) : ℕ :=
  if pitch ∈ gmPitches then pitch
  else (pitch_mapping pitch).getD pitch

/-- The grid-division chain of `quantize_to_grid`: 16 for `"1/16"`, 12
for `"1/12"`, 8 for `"1/8"`, and a silent default of 16 for anything
else. -/
def grid_divisions (grid : String) : ℚ :=
  if grid = "1/16" then 16
  else if grid = "1/12" then 12
  else if grid = "1/8" then 8
  else 16

/-- The local `seconds_per_grid` of `quantize_to_grid`:
`beats_per_second = tempo / 60`, `seconds_per_beat = 1 / beats_per_second`,
`seconds_per_grid = seconds_per_beat / (grid_divisions / 4.0)`. -/
def seconds_per_grid (grid : String) (tempo : ℚ) : ℚ :=
  (1 / (tempo / 60)) / (grid_divisions grid / 4)

/-- `quantize_to_grid` from `midi_standardizer.py`:
`round(time / seconds_per_grid) * seconds_per_grid` with Python
rounding. -/
def quantize_to_grid (time_seconds : ℚ) (grid : String := "1/16")
    (tempo : ℚ := 120) : ℚ :=
  (pyRound (time_seconds / seconds_per_grid grid tempo) : ℚ)
    * seconds_per_grid grid tempo

/-- The ghost-note rescaling inline in `standardize_drum_midi`:
`if velocity < 40: velocity = int(25 + (velocity / 40.0) * 10)`.
For integer `0 ≤ v ≤ 39` the Python float expression evaluates exactly to
`25 + v * 10 / 40` under truncating `int`, which is the natural-number
division below. -/
def ghost_note_velocity (velocity : ℕ) : ℕ :=
  if velocity < 40 then 25 + velocity * 10 / 40 else velocity

/-- A raw event extracted from the input MIDI's drum track in
`standardize_drum_midi` (`{'time': note.start, 'pitch': note.pitch,
'velocity': note.velocity, 'duration': note.end - note.start}`). -/
structure RawEvent where
  time : ℚ
  pitch : ℕ
  velocity : ℕ
  duration : ℚ
deriving DecidableEq, Repr

/-- An output note of `standardize_drum_midi` (a `pretty_midi.Note` with
`start = quantized_time`, `end = quantized_time + 0.1`); the fixed 0.1 s
duration is implicit. -/
structure StdNote where
  time : ℚ
  pitch : ℕ
  velocity : ℕ
deriving DecidableEq, Repr

/-- The per-event processing loop of `standardize_drum_midi`: drop
glitches with duration < 0.025 s, quantize the time, normalize the pitch,
rescale ghost velocities.  (The `original_time` bookkeeping field is not
used by any later step and is omitted.) -/
def processEvent (grid : String) (tempo : ℚ) (e : RawEvent) :
    Option StdNote :=
  if e.duration < 1/40 then none
  else some ⟨quantize_to_grid e.time grid tempo,
             normalize_gm_percussion e.pitch,
             ghost_note_velocity e.velocity⟩

/-- First-occurrence deduplication, the order in which a Python dict built
by insertion enumerates its keys: each element keeps its first occurrence
and later duplicates are discarded. -/
def firstDedup {α : Type} [DecidableEq α] : List α → List α
  | [] => []
  | x :: xs => x :: (firstDedup xs).filter (fun y => y ≠ x)

/-- The velocity kept for one (time, pitch) bucket by the
`unique_events` loop: the entry is replaced exactly when a later event has
strictly greater velocity, so the kept velocity is the maximum. -/
def slotVelocity (l : List StdNote) : ℕ :=
  l.foldr (fun n acc => max n.velocity acc) 0

/-- One time slot of the polyphonic merge: `time_groups[t]` is the list of
processed events whose quantized time is `t` (in encounter order), and
`unique_events` keeps one entry per pitch, in first-occurrence order, with
the maximum velocity. -/
def slotNotes (ps : List StdNote) (t : ℚ) : List StdNote :=
  let atT := ps.filter (fun n => n.time = t)
  (firstDedup (atT.map (·.pitch))).map
    (fun p => ⟨t, p, slotVelocity (atT.filter (fun n => n.pitch = p))⟩)

/-- The distinct quantized times in ascending order:
`sorted(time_groups.items())` iterates the distinct dict keys sorted. -/
def sortedTimes (ps : List StdNote) : List ℚ :=
  (firstDedup (ps.map (·.time))).insertionSort (· ≤ ·)

/-- Steps 4–5 of `standardize_drum_midi`: group processed events by
quantized time, deduplicate by pitch within each slot keeping the maximum
velocity, and emit slots in ascending time order. -/
def mergeNotes (ps : List StdNote) : List StdNote :=
  (sortedTimes ps).flatMap (slotNotes ps)

/-- `standardize_drum_midi` from `midi_standardizer.py`, restricted to its
algorithmic content: the note list written to the output file, as a
function of the drum-track note list of the input file. -/
def standardize_drum_midi (events : List RawEvent) (grid : String := "1/16")
    (tempo : ℚ := 120) : List StdNote :=
  mergeNotes (events.filterMap (processEvent grid tempo))

/-- Reading the output of `standardize_drum_midi` back in: every written
note has the fixed `note_duration = 0.1`. -/
def noteToEvent (n : StdNote) : RawEvent :=
  ⟨n.time, n.pitch, n.velocity, 1/10⟩

/-- The local `quantize_interval` of `DrumDetector.quantize_onsets`:
`beat_duration = 60 / bpm` divided by 4, 2 or 1 depending on the
resolution string, defaulting to 16th notes. -/
def quantize_interval (bpm : ℚ) (quantize_to : String) : ℚ :=
  let beat_duration := 60 / bpm
  if quantize_to = "16th" then beat_duration / 4
  else if quantize_to = "8th" then beat_duration / 2
  else if quantize_to = "quarter" then beat_duration
  else beat_duration / 4

/-- `DrumDetector.quantize_onsets` from `drum_detector.py`: snap every
onset to the BPM grid with `np.round`, then `np.unique` (which returns
the *sorted distinct* values). -/
def quantize_onsets (onsets : List ℚ) (bpm : ℚ := 120)
    (quantize_to : String := "16th") : List ℚ :=
  if onsets = [] then onsets
  else
    (firstDedup (onsets.map
        (fun t => (pyRound (t / quantize_interval bpm quantize_to) : ℚ)
            * quantize_interval bpm quantize_to))
      ).insertionSort (· ≤ ·)

/-- A `(t, name, vel)` event of `transcribe_drums.py`. -/
structure DrumEvent where
  time : ℚ
  name : String
  velocity : ℕ
deriving DecidableEq, Repr

/-- `MIN_GAP = 0.05` from `transcribe_drums.py`. -/
def MIN_GAP : ℚ := 1/20

/-- `GM.keys()` iteration order in `transcribe_drums.py`. -/
def gmLabels : List String := ["kick", "snare", "hihat", "tom", "cymbal"]

/-- The greedy inner loop of the minimum-gap filter: starting from
`last = -1.0`, keep an event iff `last < 0 or t - last >= MIN_GAP`. -/
def keepWithGap : ℚ → List DrumEvent → List DrumEvent
  | _, [] => []
  | last, e :: es =>
      if last < 0 ∨ MIN_GAP ≤ e.time - last
      then e :: keepWithGap e.time es
      else keepWithGap last es

/-- The per-class minimum-gap post-filter of `transcribe_drums_to_midi`
(step "5) Post-processing: minimum gap filtering by class"): for each
label, sort that class's events by time and drop any event closer than
`MIN_GAP` to the previously kept one. -/
def min_gap_filter (events : List DrumEvent) : List DrumEvent :=
  gmLabels.flatMap (fun name =>
    keepWithGap (-1)
      ((events.filter (fun e => e.name = name)).insertionSort
        (fun a b => a.time ≤ b.time)))

/-- One stem produced by `SourceSeparator.separate`: its stem name, the
destination path, and the byte content of the written file (file contents
are modelled abstractly as strings). -/
structure SepStem where
  stem : String
  path : String
  content : String
deriving DecidableEq, Repr

/-- `SourceSeparator.separate` with `method='none'` from
`source_separator.py`: `shutil.copy2` the input file unchanged to
`{temp_dir}/{job_id}_{stem}.wav` for the hard-coded list
`['drums', 'bass']` ("Only create placeholders for what's needed next").
The caller's requested source list is not a parameter of `separate` and is
never consulted. -/
def separate_none (temp_dir job_id : String) (inputContent : String) :
    List SepStem :=
  ["drums", "bass"].map (fun stem =>
    ⟨stem, temp_dir ++ "/" ++ job_id ++ "_" ++ stem ++ ".wav", inputContent⟩)

/-- The result dict of `process_with_separation` (the fields the callers
and the claims inspect). -/
structure SepResult where
  success : Bool
  separation_enabled : Bool
  original_file : Option String
  error : Option String
  note : Option String
deriving DecidableEq, Repr

/-- `process_with_separation` from `source_separator.py`.
`separationError = some msg` models `separator.separate` raising an
exception with text `msg` (subprocess non-zero exit, missing output
directory, copy failure, …); the inner `except` converts it into a
successful result with a degraded note.  `separationError = none` models a
separation that returns stems. -/
def process_with_separation (input_path : String) (separate : Bool)
    (separationError : Option String) : SepResult :=
  if separate = false then
    ⟨true, false, some input_path, none,
     some "Separation disabled, using original audio"⟩
  else
    match separationError with
    | some msg =>
        ⟨true, false, some input_path, some msg,
         some "Separation failed, fell back to original audio"⟩
    | none => ⟨true, true, none, none, none⟩

/-- Job status values written by the worker. -/
inductive JobStatus
  | RUNNING
  | SUCCEEDED
  | FAILED
deriving DecidableEq, Repr

/-- One database write performed by `process_job` in `tasks.py`:
a `jobs` row update (the failure handler updates only `status`, with no
progress value, hence the `Option ℕ`), the `source_object_path` update
after a YouTube download, or the `artifacts` insert. -/
inductive DbWrite
  | statusWrite (status : JobStatus) (progress : Option ℕ)
  | sourcePathUpdate
  | artifactInsert
deriving DecidableEq, Repr

/-- Whether a database write stores a terminal job status
(`SUCCEEDED` or `FAILED`). -/
def isTerminalWrite : DbWrite → Bool
  | .statusWrite .SUCCEEDED _ => true
  | .statusWrite .FAILED _ => true
  | _ => false

/-- The fields of the fetched `jobs` row that `process_job` consumes.
`status` is present in the row but — notably — never read by
`process_job`. -/
structure JobData where
  status : String
  source_type : String
  youtube_url : Option String
  source_object_path : Option String
  separate : Bool
  instruments : List String
deriving DecidableEq, Repr

/-- Outcomes of the fallible external operations inside one `process_job`
run.  Database reads/writes themselves are modelled as total (the
Supabase client returns a row or an empty result; both are handled
in-line by the code).  Preprocessing, separation and drum transcription
failures are caught by their dedicated `except` blocks, so only the
YouTube download (and a missing URL) can reach the outer handler. -/
structure WorkerEnv where
  youtubeOk : Bool
  separationError : Option String
  drumsOk : Bool
deriving DecidableEq, Repr

/-- The progress writes from step 3 (progress 60) to the end of a run of
`process_job` that passed source handling: preprocessing writes 75 only
when a `source_object_path` is present; separation and drum transcription
write no status (their failures are caught); then 85, 90, the terminal
`SUCCEEDED` write at progress 100, and only after it the placeholder
artifact insert. -/
def processJobTail (job : JobData) : List DbWrite :=
  [.statusWrite .RUNNING (some 60)]
  ++ (match job.source_object_path with
      | some _ => [.statusWrite .RUNNING (some 75)]
      | none => [])
  ++ [.statusWrite .RUNNING (some 75),
      .statusWrite .RUNNING (some 85),
      .statusWrite .RUNNING (some 90),
      .statusWrite .SUCCEEDED (some 100),
      .artifactInsert]

/-- `process_job` from `tasks.py`, modelled as the sequence of database
writes of one invocation, paired with the `process_with_separation`
result when the separation step ran.  Any exception escaping to the outer
handler produces the single `FAILED` status write (with no progress
field).  The function never reads `job.status`: the stored status has no
influence on the run. -/
def process_job (job : JobData) (env : WorkerEnv) :
    List DbWrite × Option SepResult :=
  let start : List DbWrite :=
    [.statusWrite .RUNNING (some 0), .statusWrite .RUNNING (some 25)]
  let failed : List DbWrite := [.statusWrite .FAILED none]
  let sepResult : Option SepResult :=
    if job.separate then
      some (process_with_separation
        (job.source_object_path.getD "placeholder_audio.wav") true
        env.separationError)
    else none
  if job.source_type = "youtube" then
    match job.youtube_url with
    | none => (start ++ failed, none)
    | some _ =>
        if env.youtubeOk then
          (start ++ [.statusWrite .RUNNING (some 30), .sourcePathUpdate]
                 ++ processJobTail job, sepResult)
        else
          (start ++ [.statusWrite .RUNNING (some 30)] ++ failed, none)
  else if job.source_type = "upload" then
    (start ++ processJobTail job, sepResult)
  else
    (start ++ failed, none)

/-! ### Basic lemmas about the rounding and deduplication helpers -/

theorem pyRound_intCast (n : ℤ) : pyRound (n : ℚ) = n := by
  simp [pyRound]

theorem pyRound_nonneg {x : ℚ} (h : 0 ≤ x) : 0 ≤ pyRound x := by
  have h0 : (0 : ℤ) ≤ ⌊x⌋ := Int.floor_nonneg.2 h
  unfold pyRound
  split_ifs <;> omega

theorem mem_firstDedup {α : Type} [DecidableEq α] {a : α} :
    ∀ {l : List α}, a ∈ firstDedup l ↔ a ∈ l := by
  intro l
  induction l with
  | nil => simp [firstDedup]
  | cons x xs ih =>
      rw [firstDedup]
      constructor
      · intro h
        rcases List.mem_cons.1 h with h | h
        · exact h ▸ List.mem_cons_self _ _
        · exact List.mem_cons_of_mem _ (ih.1 (List.mem_filter.1 h).1)
      · intro h
        rcases List.mem_cons.1 h with h | h
        · exact h ▸ List.mem_cons_self _ _
        · by_cases hax : a = x
          · exact hax ▸ List.mem_cons_self _ _
          · refine List.mem_cons_of_mem _
              (List.mem_filter.2 ⟨ih.2 h, ?_⟩)
            simp [hax]

theorem firstDedup_nodup {α : Type} [DecidableEq α] :
    ∀ (l : List α), (firstDedup l).Nodup := by
  intro l
  induction l with
  | nil => simp [firstDedup]
  | cons x xs ih =>
      rw [firstDedup]
      refine List.nodup_cons.2 ⟨fun hx => ?_, ih.filter _⟩
      have := (List.mem_filter.1 hx).2
      simp at this

theorem firstDedup_eq_self {α : Type} [DecidableEq α] :
    ∀ {l : List α}, l.Nodup → firstDedup l = l := by
  intro l
  induction l with
  | nil => intro _; rw [firstDedup]
  | cons x xs ih =>
      intro hnd
      rcases List.nodup_cons.1 hnd with ⟨hx, hxs⟩
      rw [firstDedup, ih hxs]
      congr 1
      refine List.filter_eq_self.2 fun y hy => ?_
      simp only [ne_eq, decide_eq_true_eq]
      exact fun h => hx (h ▸ hy)

theorem firstDedup_ne_nil {α : Type} [DecidableEq α] {l : List α}
    (h : l ≠ []) : firstDedup l ≠ [] := by
  cases l with
  | nil => exact absurd rfl h
  | cons x xs => rw [firstDedup]; simp

/-! ### Lemmas about the polyphonic merge -/

theorem sortedTimes_nodup (ps : List StdNote) : (sortedTimes ps).Nodup :=
  (List.perm_insertionSort _ _).nodup_iff.2 (firstDedup_nodup _)

theorem sortedTimes_sorted (ps : List StdNote) :
    (sortedTimes ps).Sorted (· ≤ ·) :=
  List.sorted_insertionSort _ _

theorem mem_sortedTimes {t : ℚ} {ps : List StdNote} :
    t ∈ sortedTimes ps ↔ t ∈ ps.map (·.time) :=
  ((List.perm_insertionSort _ _).mem_iff).trans mem_firstDedup

theorem slotNotes_time {ps : List StdNote} {t : ℚ} :
    ∀ n ∈ slotNotes ps t, n.time = t := by
  intro n hn
  simp only [slotNotes, List.mem_map] at hn
  obtain ⟨p, _, rfl⟩ := hn
  rfl

theorem slotNotes_ne_nil {ps : List StdNote} {t : ℚ}
    (h : t ∈ ps.map (·.time)) : slotNotes ps t ≠ [] := by
  obtain ⟨n, hn, ht⟩ := List.mem_map.1 h
  have hat : n ∈ ps.filter (fun n => n.time = t) :=
    List.mem_filter.2 ⟨hn, by simp [ht]⟩
  have h1 : (ps.filter (fun n => n.time = t)).map (·.pitch) ≠ [] := by
    simp only [ne_eq, List.map_eq_nil_iff]
    exact List.ne_nil_of_mem hat
  unfold slotNotes
  simp only [ne_eq, List.map_eq_nil_iff]
  exact firstDedup_ne_nil h1

theorem slotVelocity_cons (n : StdNote) (ns : List StdNote) :
    slotVelocity (n :: ns) = max n.velocity (slotVelocity ns) := rfl

theorem slotVelocity_singleton (n : StdNote) :
    slotVelocity [n] = n.velocity := by
  simp [slotVelocity]

theorem slotVelocity_le {l : List StdNote} :
    ∀ n ∈ l, n.velocity ≤ slotVelocity l := by
  induction l with
  | nil => intro n hn; simp at hn
  | cons m ms ih =>
      intro n hn
      rw [slotVelocity_cons]
      rcases List.mem_cons.1 hn with h | h
      · subst h; omega
      · have := ih n h; omega

theorem slotVelocity_mem {l : List StdNote} (h : l ≠ []) :
    ∃ n ∈ l, slotVelocity l = n.velocity := by
  induction l with
  | nil => exact absurd rfl h
  | cons m ms ih =>
      by_cases hms : ms = []
      · subst hms
        exact ⟨m, List.mem_cons_self _ _, by simp [slotVelocity]⟩
      · obtain ⟨n, hn, hv⟩ := ih hms
        rw [slotVelocity_cons]
        rcases Nat.le_total (slotVelocity ms) m.velocity with hc | hc
        · exact ⟨m, List.mem_cons_self _ _, by omega⟩
        · exact ⟨n, List.mem_cons_of_mem _ hn, by omega⟩

theorem filter_slotNotes_ne {ps : List StdNote} {t t' : ℚ} (h : t' ≠ t) :
    (slotNotes ps t').filter (fun n => n.time = t) = [] :=
  List.filter_eq_nil_iff.2 fun n hn => by
    simp [slotNotes_time n hn, h]

theorem filter_slotNotes_self {ps : List StdNote} {t : ℚ} :
    (slotNotes ps t).filter (fun n => n.time = t) = slotNotes ps t :=
  List.filter_eq_self.2 fun n hn => by simp [slotNotes_time n hn]

theorem flatMap_slot_filter_not_mem {ps : List StdNote} {t : ℚ} :
    ∀ {ts : List ℚ}, t ∉ ts →
      (ts.flatMap (slotNotes ps)).filter (fun n => n.time = t) = [] := by
  intro ts
  induction ts with
  | nil => intro _; rfl
  | cons t' ts ih =>
      intro h
      rw [List.flatMap_cons, List.filter_append,
        filter_slotNotes_ne
          (fun ht => h (by rw [← ht]; exact List.mem_cons_self _ _)),
        ih (fun ht => h (List.mem_cons_of_mem _ ht)), List.append_nil]

theorem flatMap_slot_filter_mem {ps : List StdNote} {t : ℚ} :
    ∀ {ts : List ℚ}, ts.Nodup → t ∈ ts →
      (ts.flatMap (slotNotes ps)).filter (fun n => n.time = t)
        = slotNotes ps t := by
  intro ts
  induction ts with
  | nil => intro _ h; simp at h
  | cons t' ts ih =>
      intro hnd hmem
      rcases List.nodup_cons.1 hnd with ⟨ht', hts⟩
      rw [List.flatMap_cons, List.filter_append]
      rcases List.mem_cons.1 hmem with h | h
      · subst h
        rw [filter_slotNotes_self, flatMap_slot_filter_not_mem ht',
          List.append_nil]
      · rw [filter_slotNotes_ne (fun he => ht' (by rw [he]; exact h)),
          ih hts h, List.nil_append]

theorem mergeNotes_filter_time (ps : List StdNote) (t : ℚ) :
    (mergeNotes ps).filter (fun n => n.time = t)
      = if t ∈ ps.map (·.time) then slotNotes ps t else [] := by
  by_cases h : t ∈ ps.map (·.time)
  · rw [if_pos h]
    exact flatMap_slot_filter_mem (sortedTimes_nodup ps) (mem_sortedTimes.2 h)
  · rw [if_neg h]
    exact flatMap_slot_filter_not_mem (fun hc => h (mem_sortedTimes.1 hc))

theorem map_mk_filter_pitch (t : ℚ) (v : ℕ → ℕ) :
    ∀ (pitches : List ℕ), pitches.Nodup → ∀ p ∈ pitches,
      (pitches.map (fun q => StdNote.mk t q (v q))).filter
        (fun n => n.pitch = p) = [StdNote.mk t p (v p)] := by
  intro pitches
  induction pitches with
  | nil => intro _ p hp; simp at hp
  | cons q qs ih =>
      intro hnd p hp
      rcases List.nodup_cons.1 hnd with ⟨hq, hqs⟩
      rw [List.map_cons, List.filter_cons]
      by_cases hpq : p = q
      · subst hpq
        have htail :
            (qs.map (fun q => StdNote.mk t q (v q))).filter
              (fun n => n.pitch = p) = [] := by
          refine List.filter_eq_nil_iff.2 fun n hn => ?_
          obtain ⟨q', hq', rfl⟩ := List.mem_map.1 hn
          simp only [decide_eq_true_eq]
          exact fun h => hq (h ▸ hq')
        simp [htail]
      · have hp' : p ∈ qs := by
          rcases List.mem_cons.1 hp with h | h
          · exact absurd h hpq
          · exact h
        have hcond : ¬(decide ((StdNote.mk t q (v q)).pitch = p) = true) := by
          simp only [decide_eq_true_eq]
          exact fun h => hpq h.symm
        rw [if_neg hcond]
        exact ih hqs p hp'

theorem slotNotes_eq_map (ps : List StdNote) (t : ℚ) :
    slotNotes ps t
      = (firstDedup ((ps.filter (fun n => n.time = t)).map (·.pitch))).map
          (fun p => StdNote.mk t p
            (slotVelocity ((ps.filter (fun n => n.time = t)).filter
              (fun n => n.pitch = p)))) := rfl

theorem slotNotes_mergeNotes {ps : List StdNote} {t : ℚ}
    (h : t ∈ ps.map (·.time)) :
    slotNotes (mergeNotes ps) t = slotNotes ps t := by
  have hfil : (mergeNotes ps).filter (fun n => n.time = t) = slotNotes ps t := by
    rw [mergeNotes_filter_time, if_pos h]
  rw [slotNotes_eq_map _ t, hfil, slotNotes_eq_map ps t]
  set pitches := firstDedup ((ps.filter (fun n => n.time = t)).map (·.pitch))
    with hpitches
  set v : ℕ → ℕ := fun p =>
    slotVelocity ((ps.filter (fun n => n.time = t)).filter
      (fun n => n.pitch = p)) with hv
  have hnd : pitches.Nodup := firstDedup_nodup _
  have hmap : (pitches.map (fun p => StdNote.mk t p (v p))).map (·.pitch)
      = pitches := by
    rw [List.map_map]; exact List.map_id _
  rw [hmap, firstDedup_eq_self hnd]
  refine List.map_congr_left fun p hp => ?_
  have hone : (pitches.map (fun q => StdNote.mk t q (v q))).filter
      (fun n => n.pitch = p) = [StdNote.mk t p (v p)] :=
    map_mk_filter_pitch t v pitches hnd p hp
  rw [hone, slotVelocity_singleton]

theorem mem_time_mergeNotes {ps : List StdNote} {t : ℚ} :
    t ∈ (mergeNotes ps).map (·.time) ↔ t ∈ ps.map (·.time) := by
  constructor
  · intro h
    obtain ⟨n, hn, rfl⟩ := List.mem_map.1 h
    obtain ⟨t', ht', hslot⟩ := List.mem_flatMap.1 hn
    rw [slotNotes_time n hslot]
    exact mem_sortedTimes.1 ht'
  · intro h
    obtain ⟨n, hn⟩ := List.exists_mem_of_ne_nil _ (slotNotes_ne_nil h)
    exact List.mem_map.2 ⟨n,
      List.mem_flatMap.2 ⟨t, mem_sortedTimes.2 h, hn⟩, slotNotes_time n hn⟩

theorem sortedTimes_mergeNotes (ps : List StdNote) :
    sortedTimes (mergeNotes ps) = sortedTimes ps := by
  refine List.eq_of_perm_of_sorted
    ((List.perm_ext_iff_of_nodup (sortedTimes_nodup _)
      (sortedTimes_nodup _)).2 fun a => ?_)
    (sortedTimes_sorted _) (sortedTimes_sorted _)
  rw [mem_sortedTimes, mem_sortedTimes, mem_time_mergeNotes]

theorem flatMap_congr_mem {α β : Type} {f g : α → List β} :
    ∀ {l : List α}, (∀ a ∈ l, f a = g a) → l.flatMap f = l.flatMap g := by
  intro l
  induction l with
  | nil => intro _; rfl
  | cons x xs ih =>
      intro h
      rw [List.flatMap_cons, List.flatMap_cons,
        h x (List.mem_cons_self _ _),
        ih fun a ha => h a (List.mem_cons_of_mem _ ha)]

theorem mergeNotes_idem (ps : List StdNote) :
    mergeNotes (mergeNotes ps) = mergeNotes ps := by
  conv_lhs => rw [mergeNotes]
  rw [sortedTimes_mergeNotes]
  rw [flatMap_congr_mem fun t ht =>
    slotNotes_mergeNotes (mem_sortedTimes.1 ht)]
  rfl

/-! ### Lemmas about quantization and event processing -/

theorem grid_divisions_pos (grid : String) : 0 < grid_divisions grid := by
  unfold grid_divisions
  split_ifs <;> norm_num

theorem seconds_per_grid_pos {tempo : ℚ} (grid : String) (h : 0 < tempo) :
    0 < seconds_per_grid grid tempo := by
  unfold seconds_per_grid
  have h1 : 0 < 1 / (tempo / 60) := by positivity
  have h2 : 0 < grid_divisions grid / 4 := by
    have := grid_divisions_pos grid
    positivity
  exact div_pos h1 h2

theorem quantize_to_grid_idem {t tempo : ℚ} (grid : String) (h : 0 < tempo) :
    quantize_to_grid (quantize_to_grid t grid tempo) grid tempo
      = quantize_to_grid t grid tempo := by
  have hI : seconds_per_grid grid tempo ≠ 0 :=
    ne_of_gt (seconds_per_grid_pos grid h)
  unfold quantize_to_grid
  rw [mul_div_cancel_right₀ _ hI, pyRound_intCast]

theorem filterMap_eq_self {α : Type} {f : α → Option α} :
    ∀ {l : List α}, (∀ a ∈ l, f a = some a) → l.filterMap f = l := by
  intro l
  induction l with
  | nil => intro _; rfl
  | cons x xs ih =>
      intro h
      rw [List.filterMap_cons, h x (List.mem_cons_self _ _),
        ih fun a ha => h a (List.mem_cons_of_mem _ ha)]

theorem processEvent_noteToEvent {grid : String} {tempo : ℚ} {n : StdNote}
    (ht : quantize_to_grid n.time grid tempo = n.time)
    (hp : n.pitch ∈ gmPitches) (hv : 40 ≤ n.velocity) :
    processEvent grid tempo (noteToEvent n) = some n := by
  have h1 : normalize_gm_percussion n.pitch = n.pitch := by
    unfold normalize_gm_percussion
    rw [if_pos hp]
  have h2 : ghost_note_velocity n.velocity = n.velocity := by
    unfold ghost_note_velocity
    rw [if_neg (by omega)]
  unfold processEvent noteToEvent
  rw [if_neg (by norm_num)]
  simp only [ht, h1, h2]

theorem time_mem_filterMap {events : List RawEvent} {grid : String}
    {tempo : ℚ} {m : StdNote}
    (hm : m ∈ events.filterMap (processEvent grid tempo)) :
    ∃ s, m.time = quantize_to_grid s grid tempo := by
  obtain ⟨e, _, hpe⟩ := List.mem_filterMap.1 hm
  unfold processEvent at hpe
  by_cases hd : e.duration < 1/40
  · rw [if_pos hd] at hpe
    cases hpe
  · rw [if_neg hd] at hpe
    cases hpe
    exact ⟨e.time, rfl⟩

theorem quantize_interval_pos {bpm : ℚ} (q : String) (h : 0 < bpm) :
    0 < quantize_interval bpm q := by
  unfold quantize_interval
  split_ifs <;> positivity

theorem keepWithGap_subset :
    ∀ (last : ℚ) (l : List DrumEvent), ∀ e ∈ keepWithGap last l, e ∈ l := by
  intro last l
  induction l generalizing last with
  | nil => intro e he; rw [keepWithGap] at he; simp at he
  | cons x xs ih =>
      intro e he
      rw [keepWithGap] at he
      split_ifs at he with h
      · rcases List.mem_cons.1 he with h' | h'
        · exact h' ▸ List.mem_cons_self _ _
        · exact List.mem_cons_of_mem _ (ih _ e h')
      · exact List.mem_cons_of_mem _ (ih _ e he)

/-! ### Claim theorems -/

/-- C5: the ghost-note step maps every velocity `v < 40` into the closed
range `[25, 35]` (the implementation in fact lands in `[25, 34]`) by the
truncated linear rescale `25 + v·10/40` of the 0–39 sub-range, which is
monotone (order-preserving), and leaves every velocity `v ≥ 40`
unchanged. -/
theorem C5_ghost_note_law (v : ℕ) :
    (v < 40 → 25 ≤ ghost_note_velocity v ∧ ghost_note_velocity v ≤ 35)
    ∧ (40 ≤ v → ghost_note_velocity v = v)
    ∧ ∀ w, v ≤ w → ghost_note_velocity v ≤ ghost_note_velocity w := by
  unfold ghost_note_velocity
  refine ⟨fun h => ?_, fun h => ?_, fun w hw => ?_⟩
  · rw [if_pos h]
    omega
  · rw [if_neg (by omega)]
  · split_ifs <;> omega

theorem C5_ghost_note_law_witness :
    (25 ≤ ghost_note_velocity 20 ∧ ghost_note_velocity 20 ≤ 35)
    ∧ ghost_note_velocity 50 = 50
    ∧ ghost_note_velocity 20 ≤ ghost_note_velocity 30 :=
  ⟨(C5_ghost_note_law 20).1 (by decide),
   (C5_ghost_note_law 50).2.1 (by decide),
   (C5_ghost_note_law 20).2.2 30 (by decide)⟩

/-- C6: for `tempo > 0` and grid in {1/16, 1/12, 1/8}, `quantize_to_grid`
returns `round(t / interval) * interval` where
`interval = (60/tempo) / (d/4)` with `d` the grid divisions, so the
result is (exactly, hence within 1e-6 of) an integer multiple of the grid
interval. -/
theorem C6_quantize_on_grid (t tempo : ℚ) (grid : String) (d interval : ℚ)
    (_htempo : 0 < tempo)
    (hgrid : grid = "1/16" ∧ d = 16 ∨ grid = "1/12" ∧ d = 12
      ∨ grid = "1/8" ∧ d = 8)
    (hintv : interval = (60 / tempo) / (d / 4)) :
    quantize_to_grid t grid tempo = (pyRound (t / interval) : ℚ) * interval
    ∧ ∃ n : ℤ,
        |quantize_to_grid t grid tempo - (n : ℚ) * interval|
          ≤ 1 / 1000000 := by
  have hsec : seconds_per_grid grid tempo = interval := by
    rw [hintv]
    unfold seconds_per_grid grid_divisions
    rcases hgrid with ⟨hg, hd⟩ | ⟨hg, hd⟩ | ⟨hg, hd⟩ <;> subst hg <;> subst hd
    · rw [if_pos rfl, one_div_div]
    · rw [if_neg (by decide), if_pos rfl, one_div_div]
    · rw [if_neg (by decide), if_neg (by decide), if_pos rfl, one_div_div]
  constructor
  · unfold quantize_to_grid
    rw [hsec]
  · refine ⟨pyRound (t / interval), ?_⟩
    unfold quantize_to_grid
    rw [hsec, sub_self, abs_zero]
    norm_num

theorem C6_quantize_on_grid_witness :
    quantize_to_grid (13/100) "1/16" 120
        = (pyRound ((13/100) / (1/8)) : ℚ) * (1/8)
    ∧ ∃ n : ℤ,
        |quantize_to_grid (13/100) "1/16" 120 - (n : ℚ) * (1/8)|
          ≤ 1 / 1000000 :=
  C6_quantize_on_grid (13/100) 120 "1/16" 16 (1/8) (by norm_num)
    (Or.inl ⟨rfl, rfl⟩) (by norm_num)

/-- C7 counterexample: pitch 60 is not in the closed GM percussion map,
yet `normalize_gm_percussion` passes it through unchanged instead of
remapping it to a canonical class — so the output is *not* always inside
the closed map. -/
theorem C7_counterexample :
    normalize_gm_percussion 60 = 60 ∧ 60 ∉ gmPitches := by
  decide

/-- C7 amended: a pitch already in `GM_PERC_MAP` passes through
unchanged; a pitch in the fixed variation table (`pitch_mapping`) is
remapped to its canonical target, which is inside the closed map; every
other pitch passes through unchanged even when it is not a valid GM
value. -/
theorem C7_percussion_normalization (pitch : ℕ) :
    (pitch ∈ gmPitches → normalize_gm_percussion pitch = pitch)
    ∧ (pitch ∉ gmPitches →
        ∀ q, pitch_mapping pitch = some q →
          normalize_gm_percussion pitch = q ∧ q ∈ gmPitches)
    ∧ (pitch ∉ gmPitches → pitch_mapping pitch = none →
        normalize_gm_percussion pitch = pitch) := by
  refine ⟨fun h => ?_, fun h q hq => ⟨?_, ?_⟩, fun h hn => ?_⟩
  · unfold normalize_gm_percussion
    rw [if_pos h]
  · unfold normalize_gm_percussion
    rw [if_neg h, hq]
    rfl
  · unfold pitch_mapping at hq
    split_ifs at hq <;> cases hq <;> decide
  · unfold normalize_gm_percussion
    rw [if_neg h, hn]
    rfl

theorem C7_percussion_normalization_witness :
    normalize_gm_percussion 36 = 36
    ∧ (normalize_gm_percussion 35 = 36 ∧ 36 ∈ gmPitches)
    ∧ normalize_gm_percussion 60 = 60 :=
  ⟨(C7_percussion_normalization 36).1 (by decide),
   (C7_percussion_normalization 35).2.1 (by decide) 36 (by decide),
   (C7_percussion_normalization 60).2.2 (by decide) (by decide)⟩

/-- C10: any grid string other than "1/16", "1/12", "1/8" silently falls
back to 16 grid divisions, so quantization behaves exactly as for
"1/16". -/
theorem C10_invalid_grid_fallback (g : String) (t tempo : ℚ)
    (h16 : g ≠ "1/16") (h12 : g ≠ "1/12") (h8 : g ≠ "1/8") :
    quantize_to_grid t g tempo = quantize_to_grid t "1/16" tempo := by
  have hdiv : grid_divisions g = grid_divisions "1/16" := by
    unfold grid_divisions
    rw [if_neg h16, if_neg h12, if_neg h8, if_pos rfl]
  unfold quantize_to_grid seconds_per_grid
  rw [hdiv]

theorem C10_invalid_grid_fallback_witness :
    quantize_to_grid (13/100) "1/4" 120
      = quantize_to_grid (13/100) "1/16" 120 :=
  C10_invalid_grid_fallback "1/4" (13/100) 120 (by decide) (by decide)
    (by decide)

/-- C3: the polyphonic merge.  For any quantized time slot `t` (times and
pitches are those of the processed events, i.e. after quantization and GM
normalization, which is what step 5 of the algorithm groups): if the
events in the slot have distinct pitches, one note per event is emitted at
`t`; and for each pitch occurring at `t`, all its duplicates collapse to
exactly one output note whose velocity is the maximum velocity among
them. -/
theorem C3_polyphonic_merge (events : List RawEvent) (grid : String)
    (tempo t : ℚ) :
    ((((events.filterMap (processEvent grid tempo)).filter
          (fun n => n.time = t)).map (·.pitch)).Nodup →
        ((standardize_drum_midi events grid tempo).filter
            (fun n => n.time = t)).length
          = ((events.filterMap (processEvent grid tempo)).filter
              (fun n => n.time = t)).length)
    ∧ ∀ p ∈ ((events.filterMap (processEvent grid tempo)).filter
          (fun n => n.time = t)).map (·.pitch),
        ∃ v : ℕ,
          (standardize_drum_midi events grid tempo).filter
              (fun n => n.time = t ∧ n.pitch = p)
            = [StdNote.mk t p v]
          ∧ v ∈ (((events.filterMap (processEvent grid tempo)).filter
                (fun n => n.time = t)).filter
                  (fun n => n.pitch = p)).map (·.velocity)
          ∧ ∀ w ∈ (((events.filterMap (processEvent grid tempo)).filter
                (fun n => n.time = t)).filter
                  (fun n => n.pitch = p)).map (·.velocity), w ≤ v := by
  set ps := events.filterMap (processEvent grid tempo) with hps
  have hsd : standardize_drum_midi events grid tempo = mergeNotes ps := rfl
  constructor
  · intro hnd
    by_cases hmem : t ∈ ps.map (·.time)
    · rw [hsd, mergeNotes_filter_time, if_pos hmem, slotNotes_eq_map,
        List.length_map, firstDedup_eq_self hnd, List.length_map]
    · have hat : ps.filter (fun n => n.time = t) = [] :=
        List.filter_eq_nil_iff.2 fun n hn => by
          simp only [decide_eq_true_eq]
          exact fun h => hmem (List.mem_map.2 ⟨n, hn, h⟩)
      rw [hsd, mergeNotes_filter_time, if_neg hmem, hat]
  · intro p hp
    obtain ⟨n, hnat, hnp⟩ := List.mem_map.1 hp
    have hnt : n.time = t := by
      have := (List.mem_filter.1 hnat).2
      simpa using this
    have hmem : t ∈ ps.map (·.time) :=
      List.mem_map.2 ⟨n, (List.mem_filter.1 hnat).1, hnt⟩
    have hpfd : p ∈ firstDedup
        ((ps.filter (fun n => n.time = t)).map (·.pitch)) :=
      mem_firstDedup.2 hp
    have hone := map_mk_filter_pitch t
      (fun q => slotVelocity ((ps.filter (fun n => n.time = t)).filter
        (fun n => n.pitch = q)))
      (firstDedup ((ps.filter (fun n => n.time = t)).map (·.pitch)))
      (firstDedup_nodup _) p hpfd
    refine ⟨slotVelocity ((ps.filter (fun n => n.time = t)).filter
      (fun n => n.pitch = p)), ?_, ?_, ?_⟩
    · have hsplit : ((mergeNotes ps).filter
            (fun n => n.time = t)).filter (fun n => n.pitch = p)
          = (mergeNotes ps).filter (fun n => n.time = t ∧ n.pitch = p) := by
        rw [List.filter_filter]
        refine List.filter_congr fun m _ => ?_
        by_cases h1 : m.time = t <;> by_cases h2 : m.pitch = p <;>
          simp [h1, h2]
      rw [hsd, ← hsplit, mergeNotes_filter_time, if_pos hmem,
        slotNotes_eq_map]
      exact hone
    · have hne : (ps.filter (fun n => n.time = t)).filter
          (fun n => n.pitch = p) ≠ [] := by
        refine List.ne_nil_of_mem (a := n) ?_
        exact List.mem_filter.2 ⟨hnat, by simp [hnp]⟩
      obtain ⟨m, hm, hv⟩ := slotVelocity_mem hne
      exact List.mem_map.2 ⟨m, hm, hv.symm⟩
    · intro w hw
      obtain ⟨m, hm, rfl⟩ := List.mem_map.1 hw
      exact slotVelocity_le m hm

theorem C3_polyphonic_merge_witness :
    ((standardize_drum_midi
        [⟨1/100, 38, 90, 1/10⟩, ⟨1/100, 36, 100, 1/10⟩] "1/16" 120).filter
          (fun n => n.time = 0)).length
      = (([⟨1/100, 38, 90, 1/10⟩, ⟨1/100, 36, 100, 1/10⟩].filterMap
            (processEvent "1/16" 120)).filter (fun n => n.time = 0)).length
    ∧ ∃ v : ℕ,
        (standardize_drum_midi
            [⟨1/100, 38, 90, 1/10⟩, ⟨1/100, 36, 100, 1/10⟩,
             ⟨3/100, 36, 110, 1/10⟩] "1/16" 120).filter
              (fun n => n.time = 0 ∧ n.pitch = 36)
          = [StdNote.mk 0 36 v]
        ∧ v ∈ ((([⟨1/100, 38, 90, 1/10⟩, ⟨1/100, 36, 100, 1/10⟩,
              ⟨3/100, 36, 110, 1/10⟩].filterMap
                (processEvent "1/16" 120)).filter
                  (fun n => n.time = 0)).filter
                    (fun n => n.pitch = 36)).map (·.velocity)
        ∧ ∀ w ∈ ((([⟨1/100, 38, 90, 1/10⟩, ⟨1/100, 36, 100, 1/10⟩,
              ⟨3/100, 36, 110, 1/10⟩].filterMap
                (processEvent "1/16" 120)).filter
                  (fun n => n.time = 0)).filter
                    (fun n => n.pitch = 36)).map (·.velocity), w ≤ v :=
  ⟨(C3_polyphonic_merge
      [⟨1/100, 38, 90, 1/10⟩, ⟨1/100, 36, 100, 1/10⟩] "1/16" 120 0).1
      (by with_unfolding_all decide),
   (C3_polyphonic_merge
      [⟨1/100, 38, 90, 1/10⟩, ⟨1/100, 36, 100, 1/10⟩,
       ⟨3/100, 36, 110, 1/10⟩] "1/16" 120 0).2 36
      (by with_unfolding_all decide)⟩

/-- C4: standardization is idempotent on its own image.  Re-reading the
output (every note carries the fixed 0.1 s duration) and running
`standardize_drum_midi` again with the same grid and tempo returns the
identical note list, provided the output's pitches are inside the GM map
and its velocities are ≥ 40 (the conditions named by the claim; output
times are on-grid automatically). -/
theorem C4_standardize_idempotent (events : List RawEvent) (grid : String)
    (tempo : ℚ) (htempo : 0 < tempo)
    (hvel : ∀ n ∈ standardize_drum_midi events grid tempo, 40 ≤ n.velocity)
    (hpitch : ∀ n ∈ standardize_drum_midi events grid tempo,
        n.pitch ∈ gmPitches) :
    standardize_drum_midi
        ((standardize_drum_midi events grid tempo).map noteToEvent)
        grid tempo
      = standardize_drum_midi events grid tempo := by
  have hsd : standardize_drum_midi events grid tempo
      = mergeNotes (events.filterMap (processEvent grid tempo)) := rfl
  have hquant : ∀ n ∈ standardize_drum_midi events grid tempo,
      quantize_to_grid n.time grid tempo = n.time := by
    intro n hn
    rw [hsd] at hn
    have htmem := mem_time_mergeNotes.1 (List.mem_map.2 ⟨n, hn, rfl⟩)
    obtain ⟨m, hm, htm⟩ := List.mem_map.1 htmem
    obtain ⟨s, hs⟩ := time_mem_filterMap hm
    rw [← htm, hs]
    exact quantize_to_grid_idem grid htempo
  have hmap : ((standardize_drum_midi events grid tempo).map
        noteToEvent).filterMap (processEvent grid tempo)
      = standardize_drum_midi events grid tempo := by
    rw [List.filterMap_map]
    exact filterMap_eq_self fun n hn =>
      processEvent_noteToEvent (hquant n hn) (hpitch n hn) (hvel n hn)
  show mergeNotes (((standardize_drum_midi events grid tempo).map
      noteToEvent).filterMap (processEvent grid tempo))
    = standardize_drum_midi events grid tempo
  rw [hmap, hsd]
  exact mergeNotes_idem _

theorem C4_standardize_idempotent_witness :
    standardize_drum_midi
        ((standardize_drum_midi [⟨1/100, 36, 100, 1/10⟩] "1/16" 120).map
          noteToEvent) "1/16" 120
      = standardize_drum_midi [⟨1/100, 36, 100, 1/10⟩] "1/16" 120 :=
  C4_standardize_idempotent [⟨1/100, 36, 100, 1/10⟩] "1/16" 120
    (by norm_num) (by with_unfolding_all decide) (by with_unfolding_all decide)

/-- C9 counterexample: the onset-detection components themselves quantize
and deduplicate.  `DrumDetector.quantize_onsets` (called by
`process_drum_track` on every detected class) snaps the onsets 0.01 s and
0.02 s to the single grid point 0.0 — two raw events become one snapped
event, and neither raw timestamp survives — and the minimum-gap
post-filter of `transcribe_drums_to_midi` drops a same-class event only
30 ms after the previous one. -/
theorem C9_counterexample :
    quantize_onsets [1/100, 2/100] 120 "16th" = [0]
    ∧ (1/100 : ℚ) ∉ quantize_onsets [1/100, 2/100] 120 "16th"
    ∧ min_gap_filter [⟨0, "kick", 80⟩, ⟨3/100, "kick", 80⟩]
        = [⟨0, "kick", 80⟩] := by
  with_unfolding_all decide

/-- C9 amended: detector timestamps stay non-negative, but the detector
pipeline itself quantizes and deduplicates: `quantize_onsets` returns the
sorted duplicate-free list of grid-snapped values of its input onsets
(each output is `round(s/interval)·interval` for some input `s`), and the
minimum-gap filter of `transcribe_drums_to_midi` only ever drops events
(every kept event is one of the inputs). -/
theorem C9_detector_quantizes (onsets : List ℚ) (bpm : ℚ) (q : String) :
    (quantize_onsets onsets bpm q).Sorted (· ≤ ·)
    ∧ (quantize_onsets onsets bpm q).Nodup
    ∧ (∀ x ∈ quantize_onsets onsets bpm q, ∃ s ∈ onsets,
        x = (pyRound (s / quantize_interval bpm q) : ℚ)
          * quantize_interval bpm q)
    ∧ (0 < bpm → (∀ s ∈ onsets, 0 ≤ s) →
        ∀ x ∈ quantize_onsets onsets bpm q, 0 ≤ x)
    ∧ ∀ events : List DrumEvent, ∀ e ∈ min_gap_filter events, e ∈ events := by
  have hmem : ∀ x ∈ quantize_onsets onsets bpm q, ∃ s ∈ onsets,
      x = (pyRound (s / quantize_interval bpm q) : ℚ)
        * quantize_interval bpm q := by
    intro x hx
    unfold quantize_onsets at hx
    split_ifs at hx with hnil
    · rw [hnil] at hx
      simp at hx
    · have hx2 := mem_firstDedup.1 ((List.perm_insertionSort _ _).mem_iff.1 hx)
      obtain ⟨s, hs, hxs⟩ := List.mem_map.1 hx2
      exact ⟨s, hs, hxs.symm⟩
  refine ⟨?_, ?_, hmem, ?_, ?_⟩
  · unfold quantize_onsets
    split_ifs with hnil
    · rw [hnil]
      exact List.sorted_nil
    · exact List.sorted_insertionSort _ _
  · unfold quantize_onsets
    split_ifs with hnil
    · rw [hnil]
      exact List.nodup_nil
    · exact (List.perm_insertionSort _ _).nodup_iff.2 (firstDedup_nodup _)
  · intro hbpm hpos x hx
    obtain ⟨s, hs, hxs⟩ := hmem x hx
    have hI := quantize_interval_pos q hbpm
    have hdiv : (0 : ℚ) ≤ s / quantize_interval bpm q :=
      div_nonneg (hpos s hs) (le_of_lt hI)
    rw [hxs]
    have := pyRound_nonneg hdiv
    positivity
  · intro events e he
    obtain ⟨name, _, hkeep⟩ := List.mem_flatMap.1 he
    have h1 := keepWithGap_subset _ _ e hkeep
    have h2 := (List.perm_insertionSort _ _).mem_iff.1 h1
    exact (List.mem_filter.1 h2).1

theorem C9_detector_quantizes_witness :
    (quantize_onsets [1/100] 120 "16th").Sorted (· ≤ ·)
    ∧ ∀ x ∈ quantize_onsets [1/100] 120 "16th", 0 ≤ x :=
  ⟨(C9_detector_quantizes [1/100] 120 "16th").1,
   (C9_detector_quantizes [1/100] 120 "16th").2.2.2.1 (by norm_num)
     (by with_unfolding_all decide)⟩

/-- C8 counterexample: `tasks.py` requests the sources
`['vocals', 'drums', 'bass', 'other']`, but `separate` with
`method='none'` produces placeholders only for the hard-coded stems
`['drums', 'bass']` — the requested stem `vocals` gets no entry, so the
pass-through does not yield one entry per requested stem. -/
theorem C8_counterexample :
    "vocals" ∈ ["vocals", "drums", "bass", "other"]
    ∧ ∀ s ∈ separate_none "/tmp/sep" "job1" "AUDIO", s.stem ≠ "vocals" := by
  decide

/-- C8 amended: `separate` with `method='none'` copies the input audio
unchanged (identical content) to `{temp_dir}/{job_id}_{stem}.wav` for
exactly the fixed stems `drums` and `bass`, ignoring whatever source list
the caller requested. -/
theorem C8_none_pass_through (temp_dir job_id input : String) :
    (separate_none temp_dir job_id input).map (·.stem) = ["drums", "bass"]
    ∧ ∀ s ∈ separate_none temp_dir job_id input,
        s.content = input
        ∧ s.path = temp_dir ++ "/" ++ job_id ++ "_" ++ s.stem ++ ".wav" := by
  refine ⟨rfl, fun s hs => ?_⟩
  simp only [separate_none, List.map_cons, List.map_nil, List.mem_cons,
    List.not_mem_nil, or_false] at hs
  rcases hs with rfl | rfl
  · exact ⟨rfl, rfl⟩
  · exact ⟨rfl, rfl⟩

theorem C8_none_pass_through_witness :
    (separate_none "/tmp/sep" "job1" "AUDIO").map (·.stem) = ["drums", "bass"]
    ∧ (⟨"drums", "/tmp/sep/job1_drums.wav", "AUDIO"⟩ : SepStem).content
        = "AUDIO"
    ∧ (⟨"drums", "/tmp/sep/job1_drums.wav", "AUDIO"⟩ : SepStem).path
        = "/tmp/sep" ++ "/" ++ "job1" ++ "_"
            ++ (⟨"drums", "/tmp/sep/job1_drums.wav", "AUDIO"⟩ : SepStem).stem
            ++ ".wav" :=
  ⟨(C8_none_pass_through "/tmp/sep" "job1" "AUDIO").1,
   ((C8_none_pass_through "/tmp/sep" "job1" "AUDIO").2
     ⟨"drums", "/tmp/sep/job1_drums.wav", "AUDIO"⟩ (by decide)).1,
   ((C8_none_pass_through "/tmp/sep" "job1" "AUDIO").2
     ⟨"drums", "/tmp/sep/job1_drums.wav", "AUDIO"⟩ (by decide)).2⟩

/-- C2: if separation is requested and the separation engine invocation
fails (the separator raises — non-zero exit, missing output, copy error),
and the required stages succeed (upload source, or YouTube source whose
download succeeds), the job still ends with the terminal `SUCCEEDED`
write and no `FAILED` write, and the separation-stage result carries
`success=True` together with the degraded note
"Separation failed, fell back to original audio" (plus the error text),
rather than a fatal error. -/
theorem C2_separation_fallback (job : JobData) (env : WorkerEnv)
    (msg : String)
    (hreq : job.source_type = "upload"
      ∨ job.source_type = "youtube" ∧ env.youtubeOk = true
          ∧ ∃ u, job.youtube_url = some u)
    (hsep : job.separate = true)
    (herr : env.separationError = some msg) :
    (process_job job env).2
        = some ⟨true, false,
            some (job.source_object_path.getD "placeholder_audio.wav"),
            some msg, some "Separation failed, fell back to original audio"⟩
    ∧ DbWrite.statusWrite .SUCCEEDED (some 100) ∈ (process_job job env).1
    ∧ ∀ p, DbWrite.statusWrite .FAILED p ∉ (process_job job env).1 := by
  rcases hreq with h | ⟨h, hok, u, hu⟩
  · have hne : job.source_type ≠ "youtube" := by rw [h]; decide
    rcases hsp : job.source_object_path with _ | sp <;>
      simp [process_job, processJobTail, process_with_separation,
        h, hne, hsp, hsep, herr]
  · rcases hsp : job.source_object_path with _ | sp <;>
      simp [process_job, processJobTail, process_with_separation,
        h, hok, hu, hsp, hsep, herr]

theorem C2_separation_fallback_witness :
    (process_job ⟨"PENDING", "upload", none, some "a.wav", true, ["drums"]⟩
        ⟨true, some "boom", true⟩).2
      = some ⟨true, false,
          some ((some "a.wav").getD "placeholder_audio.wav"),
          some "boom", some "Separation failed, fell back to original audio"⟩
    ∧ DbWrite.statusWrite .SUCCEEDED (some 100)
        ∈ (process_job ⟨"PENDING", "upload", none, some "a.wav", true,
            ["drums"]⟩ ⟨true, some "boom", true⟩).1
    ∧ ∀ p, DbWrite.statusWrite .FAILED p
        ∉ (process_job ⟨"PENDING", "upload", none, some "a.wav", true,
            ["drums"]⟩ ⟨true, some "boom", true⟩).1 :=
  C2_separation_fallback _ _ "boom" (Or.inl rfl) rfl rfl

/-- C1 counterexample.  Running `process_job` on an upload job (with the
stored status already `"SUCCEEDED"`) under a fully successful
environment: the first eight writes end with the terminal
`SUCCEEDED` write and contain *no* artifact insert — the artifact is
created only after the terminal write, so `RUNNING→SUCCEEDED` does not
wait for a baseline artifact; moreover the first write is `RUNNING` at
progress 0 even though the stored status is terminal, so re-invocation of
a terminal job is not a no-op and leaves the terminal state. -/
theorem C1_counterexample :
    ((process_job ⟨"SUCCEEDED", "upload", none, some "a.wav", false, []⟩
          ⟨true, none, true⟩).1.take 8
        = [.statusWrite .RUNNING (some 0), .statusWrite .RUNNING (some 25),
           .statusWrite .RUNNING (some 60), .statusWrite .RUNNING (some 75),
           .statusWrite .RUNNING (some 75), .statusWrite .RUNNING (some 85),
           .statusWrite .RUNNING (some 90),
           .statusWrite .SUCCEEDED (some 100)]
      ∧ DbWrite.artifactInsert ∉
          ((process_job ⟨"SUCCEEDED", "upload", none, some "a.wav", false, []⟩
            ⟨true, none, true⟩).1.take 8))
    ∧ (process_job ⟨"SUCCEEDED", "upload", none, some "a.wav", false, []⟩
          ⟨true, none, true⟩).1.head?
        = some (.statusWrite .RUNNING (some 0)) := by
  decide

/-- C1 amended: every `process_job` invocation writes exactly one
terminal status, as its final status write, after all stages it ran; but
the `SUCCEEDED` write happens *before* the baseline artifact insert (the
artifact is the only write after it), and the worker never reads the
stored status — the run always starts by writing `RUNNING` at progress 0,
so terminal states are not preserved across re-invocations. -/
theorem C1_terminal_write (job : JobData) (env : WorkerEnv) :
    ∃ pre : List DbWrite,
      (∀ w ∈ pre, isTerminalWrite w = false ∧ w ≠ DbWrite.artifactInsert)
      ∧ ((process_job job env).1 = pre ++ [DbWrite.statusWrite .FAILED none]
         ∨ (process_job job env).1
             = pre ++ [DbWrite.statusWrite .SUCCEEDED (some 100),
                 DbWrite.artifactInsert])
      ∧ pre.head? = some (DbWrite.statusWrite .RUNNING (some 0)) := by
  by_cases h1 : job.source_type = "youtube"
  · rcases hurl : job.youtube_url with _ | u
    · refine ⟨[.statusWrite .RUNNING (some 0),
        .statusWrite .RUNNING (some 25)], by decide, Or.inl ?_, rfl⟩
      simp [process_job, h1, hurl]
    · by_cases hok : env.youtubeOk = true
      · rcases hsp : job.source_object_path with _ | sp
        · refine ⟨[.statusWrite .RUNNING (some 0),
            .statusWrite .RUNNING (some 25),
            .statusWrite .RUNNING (some 30), .sourcePathUpdate,
            .statusWrite .RUNNING (some 60), .statusWrite .RUNNING (some 75),
            .statusWrite .RUNNING (some 85),
            .statusWrite .RUNNING (some 90)], by decide, Or.inr ?_, rfl⟩
          simp [process_job, processJobTail, h1, hurl, hok, hsp]
        · refine ⟨[.statusWrite .RUNNING (some 0),
            .statusWrite .RUNNING (some 25),
            .statusWrite .RUNNING (some 30), .sourcePathUpdate,
            .statusWrite .RUNNING (some 60), .statusWrite .RUNNING (some 75),
            .statusWrite .RUNNING (some 75), .statusWrite .RUNNING (some 85),
            .statusWrite .RUNNING (some 90)], by decide, Or.inr ?_, rfl⟩
          simp [process_job, processJobTail, h1, hurl, hok, hsp]
      · refine ⟨[.statusWrite .RUNNING (some 0),
          .statusWrite .RUNNING (some 25),
          .statusWrite .RUNNING (some 30)], by decide, Or.inl ?_, rfl⟩
        simp [process_job, h1, hurl, hok]
  · by_cases h2 : job.source_type = "upload"
    · rcases hsp : job.source_object_path with _ | sp
      · refine ⟨[.statusWrite .RUNNING (some 0),
          .statusWrite .RUNNING (some 25),
          .statusWrite .RUNNING (some 60), .statusWrite .RUNNING (some 75),
          .statusWrite .RUNNING (some 85),
          .statusWrite .RUNNING (some 90)], by decide, Or.inr ?_, rfl⟩
        simp [process_job, processJobTail, h1, h2, hsp]
      · refine ⟨[.statusWrite .RUNNING (some 0),
          .statusWrite .RUNNING (some 25),
          .statusWrite .RUNNING (some 60), .statusWrite .RUNNING (some 75),
          .statusWrite .RUNNING (some 75), .statusWrite .RUNNING (some 85),
          .statusWrite .RUNNING (some 90)], by decide, Or.inr ?_, rfl⟩
        simp [process_job, processJobTail, h1, h2, hsp]
    · refine ⟨[.statusWrite .RUNNING (some 0),
        .statusWrite .RUNNING (some 25)], by decide, Or.inl ?_, rfl⟩
      simp [process_job, h1, h2]

theorem C1_terminal_write_witness :
    ∃ pre : List DbWrite,
      (∀ w ∈ pre, isTerminalWrite w = false ∧ w ≠ DbWrite.artifactInsert)
      ∧ ((process_job ⟨"SUCCEEDED", "upload", none, some "a.wav", false, []⟩
            ⟨true, none, true⟩).1
          = pre ++ [DbWrite.statusWrite .FAILED none]
         ∨ (process_job ⟨"SUCCEEDED", "upload", none, some "a.wav", false, []⟩
            ⟨true, none, true⟩).1
          = pre ++ [DbWrite.statusWrite .SUCCEEDED (some 100),
              DbWrite.artifactInsert])
      ∧ pre.head? = some (DbWrite.statusWrite .RUNNING (some 0)) :=
  C1_terminal_write ⟨"SUCCEEDED", "upload", none, some "a.wav", false, []⟩
    ⟨true, none, true⟩

end MusicTab
